import Mathlib

/-!
Verification of the living-memory cleanup subsystem of `mcp-neo4j-py`
(`living-memory-system-improved.py`).

The Python source is shallowly embedded:
  * `datetime` values are modelled as whole days (`Int`), matching the
    day granularity (`.days`) at which the code consumes them;
  * Python `float` arithmetic is modelled over `ℚ`;
  * fallible code returns `Except String`;
  * the Neo4j collaborator (`execute_query`) is abstracted as explicit
    outcome parameters (row lists / `Except` results), since the core
    never inspects the connection beyond the rows it yields;
  * the wall-clock `timestamp` field of `CleanupResults` is omitted.
-/

/-- Python enum `CleanupAction`. -/
inductive CleanupAction where
  | delete
  | archive
  | merge
  | update
deriving DecidableEq, Repr

/-- `CleanupAction.value` strings of the Python enum. -/
def CleanupAction.value : CleanupAction → String
  | .delete => "delete"
  | .archive => "archive"
  | .merge => "merge"
  | .update => "update"

/-- Dataclass `MemoryNode` (frozen). Timestamps are day numbers. -/
structure MemoryNode where
  id : String
  name : String
  content : String
  category : String := "general"
  importance : String := "medium"
  created_at : Option Int := none
  updated_at : Option Int := none
  access_count : Nat := 0
  connections : Nat := 0
  relevance_score : Option ℚ := none
deriving DecidableEq, Repr

/-- Dataclass `CleanupCandidate`. -/
structure CleanupCandidate where
  node : MemoryNode
  action : CleanupAction
  reason : String
  priority : Int := 0
  similarity_target : Option String := none
deriving DecidableEq, Repr

/-- Dataclass `CleanupResults` (wall-clock `timestamp` omitted). -/
structure CleanupResults where
  deleted : Nat := 0
  archived : Nat := 0
  merged : Nat := 0
  refreshed : Nat := 0
  errors : List String := []
deriving DecidableEq, Repr

/-- `CleanupResults.total_actions`. -/
def CleanupResults.total_actions (r : CleanupResults) : Nat :=
  r.deleted + r.archived + r.merged + r.refreshed

/-- Dataclass `MemoryHealthMetrics`. -/
structure MemoryHealthMetrics where
  total_nodes : Nat
  isolated_nodes : Nat
  stale_nodes : Nat
  duplicate_pairs : Nat
  avg_connections : ℚ
  avg_relevance_score : ℚ
  growth_rate_7d : Nat
deriving DecidableEq, Repr

/-- A full weight table for `WeightedRelevanceCalculator`: one rational
weight per `RelevanceFactors` member (a Python dict holding all five
keys). -/
structure Weights where
  age : ℚ
  connections : ℚ
  access_count : ℚ
  category : ℚ
  importance : ℚ
deriving DecidableEq, Repr

/-- `sum(self.weights.values())` for a full weight table. -/
def Weights.total (w : Weights) : ℚ :=
  w.age + w.connections + w.access_count + w.category + w.importance

/-- The default weight dict of `WeightedRelevanceCalculator.__init__`. -/
def defaultWeights : Weights :=
  { age := 3/10, connections := 3/10, access_count := 2/10,
    category := 1/10, importance := 1/10 }

/-- A possibly partial weight dict: a Python `Dict[RelevanceFactors, float]`
may omit keys. `none` models an absent key. -/
structure PartialWeights where
  age : Option ℚ
  connections : Option ℚ
  access_count : Option ℚ
  category : Option ℚ
  importance : Option ℚ
deriving DecidableEq, Repr

/-- Python dict truthiness: a dict is falsy iff it has no keys. -/
def PartialWeights.isEmptyDict (w : PartialWeights) : Bool :=
  w.age.isNone && w.connections.isNone && w.access_count.isNone &&
  w.category.isNone && w.importance.isNone

/-- `sum(self.weights.values())` over the present keys. -/
def PartialWeights.sumValues (w : PartialWeights) : ℚ :=
  w.age.getD 0 + w.connections.getD 0 + w.access_count.getD 0 +
  w.category.getD 0 + w.importance.getD 0

/-- The default weight dict, as a (full) partial dict. -/
def defaultPartialWeights : PartialWeights :=
  { age := some (3/10), connections := some (3/10),
    access_count := some (2/10), category := some (1/10),
    importance := some (1/10) }

/-- `WeightedRelevanceCalculator.__init__`: `self.weights = weights or
{default}` (Python `or` substitutes the defaults for `None` and for an
empty dict), then raises `ValueError` unless the stored weights sum to
1.0 within 0.01. Returns the stored weight dict on success. -/
def mkWeightedRelevanceCalculator (weights : Option PartialWeights) :
    Except String PartialWeights :=
  let w := match weights with
    | none => defaultPartialWeights
    | some pw => if pw.isEmptyDict then defaultPartialWeights else pw
  if 1/100 < |w.sumValues - 1| then
    Except.error "Pesos devem somar 1.0"
  else
    Except.ok w

/-- `WeightedRelevanceCalculator.calculate` over a full weight table.
`now` is the current day number; `age_days = (now - updated_at).days`. -/
def calculate (now : Int) (w : Weights) (n : MemoryNode) : ℚ :=
  let score : ℚ := 0
  let score := match n.updated_at with
    | some t => score + max 0 (1 - ((now - t : Int) : ℚ) / 365) * w.age
    | none => score
  let score := score + min 1 ((n.connections : ℚ) / 10) * w.connections
  let score := score + min 1 ((n.access_count : ℚ) / 50) * w.access_count
  let score := if n.category = "professional" then score + w.category else score
  let score := if n.importance = "high" then score + w.importance else score
  min 1 score

/-- Modelled from the spec's words (for refinement comparison with
`calculate`): the weighted sum of the five factor contributions. -/
def specWeightedSum (now : Int) (w : Weights) (n : MemoryNode) : ℚ :=
  (match n.updated_at with
    | some t => max 0 (1 - ((now - t : Int) : ℚ) / 365) * w.age
    | none => 0) +
  min 1 ((n.connections : ℚ) / 10) * w.connections +
  min 1 ((n.access_count : ℚ) / 50) * w.access_count +
  (if n.category = "professional" then w.category else 0) +
  (if n.importance = "high" then w.importance else 0)

/-- Clamp to `[0, 1]`. -/
def clamp01 (x : ℚ) : ℚ := max 0 (min 1 x)

/-- Modelled from the spec's words: the claimed final score, the clamp
to `[0,1]` of the weighted sum. -/
def specScore (now : Int) (w : Weights) (n : MemoryNode) : ℚ :=
  clamp01 (specWeightedSum now w n)

/-- Stable insertion into a priority-descending list: the new element is
placed after every element of priority `≥` its own (Python's stable
`list.sort(key=priority, reverse=True)` keeps earlier elements first on
ties). -/
def insertDesc (x : CleanupCandidate) : List CleanupCandidate → List CleanupCandidate
  | [] => [x]
  | y :: ys => if x.priority > y.priority then x :: y :: ys else y :: insertDesc x ys

/-- The stable priority-descending sort performed by
`candidates.sort(key=lambda x: x.priority, reverse=True)`. -/
def sortDesc (l : List CleanupCandidate) : List CleanupCandidate :=
  l.foldl (fun acc x => insertDesc x acc) []

/-- The gather loop of `identify_cleanup_candidates`: extend with each
sub-scan's rows, skipping results that are exceptions. -/
def collectResults (rs : List (Except String (List CleanupCandidate))) :
    List CleanupCandidate :=
  rs.foldl (fun acc r => match r with
    | .ok l => acc ++ l
    | .error _ => acc) []

/-- `LivingMemorySystem.identify_cleanup_candidates`, parameterized by the
outcomes of the four sub-scans (in the source's task order: isolated,
stale, duplicate, low-relevance). -/
def identifyCleanupCandidates
    (iso stale dup low : Except String (List CleanupCandidate)) :
    List CleanupCandidate :=
  sortDesc (collectResults [iso, stale, dup, low])

/-- First-occurrence-ordered deduplication, as performed by inserting keys
into a Python dict. -/
def dedupFirst (l : List CleanupAction) : List CleanupAction :=
  l.foldl (fun acc a => if a ∈ acc then acc else acc ++ [a]) []

/-- The key order of `actions_map` in `apply_cleanup_actions`: actions in
order of first occurrence among the candidates. -/
def actionOrder (cs : List CleanupCandidate) : List CleanupAction :=
  dedupFirst (cs.map (·.action))

/-- The candidate list stored under one action key of `actions_map`
(candidates of that action, in their original order). -/
def groupFor (cs : List CleanupCandidate) (a : CleanupAction) :
    List CleanupCandidate :=
  cs.filter (fun c => c.action = a)

/-- `actions_map.items()`: action groups in key-insertion order. -/
def actionGroups (cs : List CleanupCandidate) :
    List (CleanupAction × List CleanupCandidate) :=
  (actionOrder cs).map (fun a => (a, groupFor cs a))

/-- The error message `f"Erro ao executar {action.value}: {e}"`. -/
def errMsg (a : CleanupAction) (e : String) : String :=
  "Erro ao executar " ++ a.value ++ ": " ++ e

/-- Field assignment `results.<count> = count` for one action group. -/
def setCount (r : CleanupResults) (a : CleanupAction) (n : Nat) : CleanupResults :=
  match a with
  | .delete => { r with deleted := n }
  | .archive => { r with archived := n }
  | .merge => { r with merged := n }
  | .update => { r with refreshed := n }

/-- One iteration of the action loop in `apply_cleanup_actions`: run the
group's executor; on success store its count, on exception append the
error message. -/
def applyStep (exec : CleanupAction → List CleanupCandidate → Except String Nat)
    (r : CleanupResults) (p : CleanupAction × List CleanupCandidate) :
    CleanupResults :=
  match exec p.1 p.2 with
  | .ok n => setCount r p.1 n
  | .error e => { r with errors := r.errors ++ [errMsg p.1 e] }

/-- `LivingMemorySystem.apply_cleanup_actions`, parameterized by the
executor behaviour of the four action handlers (`_delete_nodes`,
`_archive_nodes`, `_merge_nodes`, `_update_nodes`), each of which may
raise. -/
def applyCleanupActions
    (exec : CleanupAction → List CleanupCandidate → Except String Nat)
    (cs : List CleanupCandidate) : CleanupResults :=
  (actionGroups cs).foldl (applyStep exec) {}

/-- External outcomes consumed by one cleanup cycle: the two health
analyses, the four sub-scans, and the action-group executors. -/
structure CycleEnv where
  healthBefore : Except String MemoryHealthMetrics
  isoScan : Except String (List CleanupCandidate)
  staleScan : Except String (List CleanupCandidate)
  dupScan : Except String (List CleanupCandidate)
  lowScan : Except String (List CleanupCandidate)
  exec : CleanupAction → List CleanupCandidate → Except String Nat
  healthAfter : Except String MemoryHealthMetrics

/-- The candidate list `run_cleanup_cycle` hands to
`apply_cleanup_actions`: the identified list, truncated to the cap when
it is longer. -/
def keptCandidates (cap : Nat) (env : CycleEnv) : List CleanupCandidate :=
  let cs := identifyCleanupCandidates env.isoScan env.staleScan env.dupScan env.lowScan
  if cs.length > cap then cs.take cap else cs

/-- `AutoCleanupScheduler.run_cleanup_cycle`. State is the `_is_running`
flag. A call while running raises `RuntimeError` and leaves the flag
untouched; otherwise the body runs under `try/finally`, so the flag is
`False` afterwards whether the body returned or raised. Metrics logging
(`_log_cleanup_metrics`) catches its own exceptions and is observably a
no-op here. -/
def runCleanupCycle (isRunning : Bool) (cap : Nat) (env : CycleEnv) :
    Except String CleanupResults × Bool :=
  if isRunning then
    (Except.error "Ciclo de limpeza já em execução", isRunning)
  else
    let body : Except String CleanupResults := do
      let _ ← env.healthBefore
      let kept := keptCandidates cap env
      let results :=
        if kept.isEmpty then ({} : CleanupResults)
        else applyCleanupActions env.exec kept
      let _ ← env.healthAfter
      pure results
    (body, false)

/-- A row of a classification query (all columns are aliased by the
queries, so every key is present; `content` may be a database null). -/
structure Row where
  id : String
  name : String
  content : Option String
  category : String
  importance : String
  created_at : Option Int
  updated_at : Option Int
  access_count : Nat
  connections : Nat
deriving DecidableEq, Repr

/-- `LivingMemorySystem._row_to_memory_node`, including the `MemoryNode`
post-init validation (`ValueError` on empty id or name) and the
`row["content"] or ""` null-to-empty coercion. -/
def rowToMemoryNode (r : Row) : Except String MemoryNode :=
  if r.id = "" ∨ r.name = "" then
    Except.error "ID e name são obrigatórios"
  else
    Except.ok
      { id := r.id, name := r.name, content := r.content.getD "",
        category := r.category, importance := r.importance,
        created_at := r.created_at, updated_at := r.updated_at,
        access_count := r.access_count, connections := r.connections }

/-- The candidate built by `_find_isolated_nodes` for one converted node:
Delete at priority 3 unless importance is "high", else Archive at
priority 2, reason `"Nó isolado sem conexões"`. -/
def isolatedCandidate (node : MemoryNode) : CleanupCandidate :=
  let action := if node.importance ≠ "high" then CleanupAction.delete
                else CleanupAction.archive
  { node := node, action := action, reason := "Nó isolado sem conexões",
    priority := if action = CleanupAction.delete then 3 else 2 }

/-- `LivingMemorySystem._find_isolated_nodes`, parameterized by the rows
the isolated-node query returned: each row is converted and mapped to its
candidate, in row order. A `ValueError` raised while converting a row
propagates out of the scan. -/
def findIsolatedNodes : List Row → Except String (List CleanupCandidate)
  | [] => Except.ok []
  | r :: rows => do
    let node ← rowToMemoryNode r
    let rest ← findIsolatedNodes rows
    pure (isolatedCandidate node :: rest)

/-- One candidate step of `_merge_nodes`: candidates with a falsy
`similarity_target` (absent or empty string) are skipped; otherwise the
merge query runs (`mexec source_id target_id` yields the `merged` column
of each returned row), a per-pair exception is caught and ignored, and
the count increments only when a row with a truthy `merged` value came
back. -/
def mergeStep (mexec : String → String → Except String (List Int))
    (acc : Nat) (c : CleanupCandidate) : Nat :=
  match c.similarity_target with
  | none => acc
  | some t =>
    if t = "" then acc
    else
      match mexec c.node.id t with
      | .error _ => acc
      | .ok [] => acc
      | .ok (m :: _) => if m ≠ 0 then acc + 1 else acc

/-- `LivingMemorySystem._merge_nodes`, parameterized by the outcome of
the merge query per (source, target) pair. -/
def mergeNodes (mexec : String → String → Except String (List Int))
    (cs : List CleanupCandidate) : Nat :=
  cs.foldl (mergeStep mexec) 0

/-- The (source, target) pairs for which `_merge_nodes` attempts a merge
query, in order. -/
def mergeAttempts (cs : List CleanupCandidate) : List (String × String) :=
  cs.filterMap (fun c =>
    match c.similarity_target with
    | none => none
    | some t => if t = "" then none else some (c.node.id, t))

/-- The executor table as wired in the source: Delete, Archive and Update
call their batched queries (abstracted), while Merge calls
`_merge_nodes`, which catches every per-pair exception and therefore
never raises. -/
def execWith (execD execA execU : List CleanupCandidate → Except String Nat)
    (mexec : String → String → Except String (List Int)) :
    CleanupAction → List CleanupCandidate → Except String Nat
  | .delete, g => execD g
  | .archive, g => execA g
  | .update, g => execU g
  | .merge, g => Except.ok (mergeNodes mexec g)

/-- The `functools.lru_cache(maxsize=1000)` on
`WeightedRelevanceCalculator.calculate`. The cache is an association list
from full `MemoryNode` snapshots (the frozen dataclass hashes all its
fields) to scores, most recently used first: a hit requires an exact
full-snapshot match and moves the entry to the front; a miss computes the
score, caches it, and evicts the least recently used entry beyond 1000
entries. -/
def calculateCached (now : Int) (w : Weights) (cache : List (MemoryNode × ℚ))
    (n : MemoryNode) : ℚ × List (MemoryNode × ℚ) :=
  match cache.find? (fun p => p.1 = n) with
  | some p => (p.2, p :: cache.eraseP (fun q => q.1 = n))
  | none =>
    (calculate now w n,
     if ((n, calculate now w n) :: cache).length > 1000 then
       ((n, calculate now w n) :: cache).dropLast
     else (n, calculate now w n) :: cache)

/-- C9: two snapshots of the same node identity, differing only in
connection count. -/
def c9NodeA : MemoryNode := { id := "n", name := "n", content := "" }

/-- C9: the second snapshot of the node carrying identity "n". -/
def c9NodeB : MemoryNode := { id := "n", name := "n", content := "", connections := 10 }

/-- Cache coherence: every cached entry stores the pure score of its full
snapshot key. -/
def CacheCoherent (now : Int) (w : Weights) (cache : List (MemoryNode × ℚ)) : Prop :=
  ∀ p ∈ cache, p.2 = calculate now w p.1

/-- The rows a sub-scan contributed: its list on success, nothing on an
exception. -/
def scanResultList (r : Except String (List CleanupCandidate)) :
    List CleanupCandidate :=
  match r with
  | .ok l => l
  | .error _ => []

/-! ## Concrete instances used in counterexamples and witnesses -/

/-- C1 counterexample weights: they sum to 1.0 exactly, but one weight is
negative. -/
def c1Weights : Weights :=
  { age := 0, connections := -1/2, access_count := 3/2,
    category := 0, importance := 0 }

/-- C1 counterexample node: ten connections, nothing else. -/
def c1Node : MemoryNode :=
  { id := "n1", name := "n1", content := "", connections := 10 }

/-- C2 counterexample input: an empty weight dict. -/
def c2EmptyWeights : PartialWeights := ⟨none, none, none, none, none⟩

/-- The count an action-group executor produced, with a supplied default
for the exception case (the field keeps its previous value then). -/
def execCountD (exec : CleanupAction → List CleanupCandidate → Except String Nat)
    (G : CleanupAction → List CleanupCandidate) (a : CleanupAction) (dflt : Nat) : Nat :=
  match exec a (G a) with
  | .ok n => n
  | .error _ => dflt

/-- The error message one action group contributes, if its executor
raised. -/
def execMsg (exec : CleanupAction → List CleanupCandidate → Except String Nat)
    (G : CleanupAction → List CleanupCandidate) (a : CleanupAction) : Option String :=
  match exec a (G a) with
  | .ok _ => none
  | .error e => some (errMsg a e)

/-- Closed form of the count field one action ends up with after
`apply_cleanup_actions`: its executor's count if the action occurs among
the candidates and its group succeeded, otherwise 0. -/
def groupCount (exec : CleanupAction → List CleanupCandidate → Except String Nat)
    (cs : List CleanupCandidate) (a : CleanupAction) : Nat :=
  if a ∈ actionOrder cs then execCountD exec (groupFor cs) a 0 else 0

/-- Closed form of the error list `apply_cleanup_actions` accumulates:
one message per failing present group, in group order. -/
def groupErrors (exec : CleanupAction → List CleanupCandidate → Except String Nat)
    (cs : List CleanupCandidate) : List String :=
  (actionOrder cs).filterMap (execMsg exec (groupFor cs))

/-- C4 example: a Delete candidate. -/
def c4DeleteCand : CleanupCandidate :=
  { node := { id := "a", name := "a", content := "" },
    action := CleanupAction.delete, reason := "r", priority := 3 }

/-- C4 example: an Archive candidate. -/
def c4ArchiveCand : CleanupCandidate :=
  { node := { id := "b", name := "b", content := "" },
    action := CleanupAction.archive, reason := "r", priority := 2 }

/-- C4 example executors: the Delete group raises, the others succeed
(Archive reporting the group size). -/
def c4Exec : CleanupAction → List CleanupCandidate → Except String Nat
  | .delete, _ => Except.error "boom"
  | .archive, g => Except.ok g.length
  | .merge, _ => Except.ok 0
  | .update, _ => Except.ok 0

/-- The full identified candidate list of one cycle. -/
def identifiedCandidates (env : CycleEnv) : List CleanupCandidate :=
  identifyCleanupCandidates env.isoScan env.staleScan env.dupScan env.lowScan

/-- C7 witness: an empty health snapshot. -/
def c7Health : MemoryHealthMetrics :=
  { total_nodes := 0, isolated_nodes := 0, stale_nodes := 0, duplicate_pairs := 0,
    avg_connections := 0, avg_relevance_score := 0, growth_rate_7d := 0 }

/-- C7 witness: a priority-3 candidate. -/
def c7CandA : CleanupCandidate :=
  { node := { id := "a", name := "a", content := "" },
    action := CleanupAction.delete, reason := "r", priority := 3 }

/-- C7 witness: a priority-1 candidate. -/
def c7CandB : CleanupCandidate :=
  { node := { id := "b", name := "b", content := "" },
    action := CleanupAction.archive, reason := "r", priority := 1 }

/-- C7 witness: a cycle environment identifying two candidates, with both
health analyses succeeding. -/
def c7Env : CycleEnv :=
  { healthBefore := Except.ok c7Health,
    isoScan := Except.ok [c7CandA, c7CandB],
    staleScan := Except.ok [], dupScan := Except.ok [], lowScan := Except.ok [],
    exec := fun _ _ => Except.ok 0,
    healthAfter := Except.ok c7Health }

/-- C8 counterexample row: an isolated, medium-importance node. -/
def c8Row : Row :=
  { id := "x", name := "x", content := none, category := "general",
    importance := "medium", created_at := none, updated_at := none,
    access_count := 0, connections := 0 }

/-- The candidate the isolated scan produces for `c8Row`. -/
def c8Candidate : CleanupCandidate :=
  isolatedCandidate
    { id := "x", name := "x", content := "", category := "general",
      importance := "medium", created_at := none, updated_at := none,
      access_count := 0, connections := 0 }

/-- C10 witness: a Merge candidate with no merge target. -/
def c10NoTarget : CleanupCandidate :=
  { node := { id := "s", name := "s", content := "" },
    action := CleanupAction.merge, reason := "dup", priority := 3,
    similarity_target := none }

/-- C10 witness: a Merge candidate with a merge target. -/
def c10WithTarget : CleanupCandidate :=
  { node := { id := "u", name := "u", content := "" },
    action := CleanupAction.merge, reason := "dup", priority := 3,
    similarity_target := some "t" }

/-- C10 witness: a merge query that always reports one merged row. -/
def c10Exec : String → String → Except String (List Int) :=
  fun _ _ => Except.ok [1]

/-- C10 witness: a batched executor that always succeeds with count 0. -/
def c10Ok : List CleanupCandidate → Except String Nat :=
  fun _ => Except.ok 0

/-! ## Theorems -/

theorem calculate_eq_min_sum (now : Int) (w : Weights) (n : MemoryNode) :
    calculate now w n = min 1 (specWeightedSum now w n) := by
  unfold calculate specWeightedSum
  cases h : n.updated_at <;> simp only [h] <;> split_ifs <;>
    first
      | rfl
      | (congr 1; ring)

theorem specWeightedSum_nonneg (now : Int) (w : Weights) (n : MemoryNode)
    (hage : 0 ≤ w.age) (hconn : 0 ≤ w.connections) (hacc : 0 ≤ w.access_count)
    (hcat : 0 ≤ w.category) (himp : 0 ≤ w.importance) :
    0 ≤ specWeightedSum now w n := by
  unfold specWeightedSum
  have h10 : (0:ℚ) ≤ (n.connections : ℚ) / 10 := by positivity
  have h50 : (0:ℚ) ≤ (n.access_count : ℚ) / 50 := by positivity
  have hconn1 : (0:ℚ) ≤ min 1 ((n.connections : ℚ) / 10) := le_min (by norm_num) h10
  have hacc1 : (0:ℚ) ≤ min 1 ((n.access_count : ℚ) / 50) := le_min (by norm_num) h50
  have hagefac : ∀ t : Int, (0:ℚ) ≤ max 0 (1 - ((now - t : Int) : ℚ) / 365) :=
    fun t => le_max_left 0 _
  cases h : n.updated_at <;> simp only [h] <;> split_ifs <;>
    positivity

/-- C1: the claim as stated is false: the weight set `c1Weights` sums to
1.0 (within the 0.01 tolerance), yet `calculate` returns -1/2 on
`c1Node` — not the clamp of the weighted sum to [0,1], and outside
[0.0, 1.0]. -/
theorem c1_counterexample :
    |c1Weights.total - 1| ≤ 1/100 ∧
    calculate 0 c1Weights c1Node = -1/2 ∧
    calculate 0 c1Weights c1Node < 0 ∧
    calculate 0 c1Weights c1Node ≠ specScore 0 c1Weights c1Node := by
  refine ⟨by norm_num [c1Weights, Weights.total], ?_, ?_, ?_⟩ <;>
    norm_num [calculate, specScore, clamp01, specWeightedSum, c1Weights, c1Node]

/-- C1 (amended): for every weight configuration whose five weights are
non-negative and sum to 1.0 within ±0.01, `calculate` returns the clamp
to [0,1] of the weighted sum of the five factors (age, connections,
access, category bonus, importance bonus), and the result lies in
[0.0, 1.0]. -/
theorem c1_calculate_is_clamped_weighted_sum
    (now : Int) (w : Weights) (n : MemoryNode)
    (hage : 0 ≤ w.age) (hconn : 0 ≤ w.connections) (hacc : 0 ≤ w.access_count)
    (hcat : 0 ≤ w.category) (himp : 0 ≤ w.importance)
    (htol : |w.total - 1| ≤ 1/100) :
    calculate now w n = specScore now w n ∧
    0 ≤ calculate now w n ∧ calculate now w n ≤ 1 := by
  have hs : 0 ≤ specWeightedSum now w n :=
    specWeightedSum_nonneg now w n hage hconn hacc hcat himp
  have heq : calculate now w n = min 1 (specWeightedSum now w n) :=
    calculate_eq_min_sum now w n
  have hmin : (0:ℚ) ≤ min 1 (specWeightedSum now w n) := le_min (by norm_num) hs
  refine ⟨?_, ?_, ?_⟩
  · rw [heq]
    unfold specScore clamp01
    exact (max_eq_right hmin).symm
  · rw [heq]; exact hmin
  · rw [heq]; exact min_le_left _ _

/-- C1 witness: the amended theorem instantiated at the default weights
and a concrete node. -/
theorem c1_witness :
    calculate 0 defaultWeights c1Node = specScore 0 defaultWeights c1Node ∧
    0 ≤ calculate 0 defaultWeights c1Node ∧
    calculate 0 defaultWeights c1Node ≤ 1 :=
  c1_calculate_is_clamped_weighted_sum 0 defaultWeights c1Node
    (by norm_num [defaultWeights]) (by norm_num [defaultWeights])
    (by norm_num [defaultWeights]) (by norm_num [defaultWeights])
    (by norm_num [defaultWeights])
    (by norm_num [defaultWeights, Weights.total])

/-- C2: the claim as stated is false: the supplied empty weight dict sums
to 0 (off from 1.0 by more than 0.01), yet construction succeeds —
Python's `weights or {default}` treats the empty dict as falsy and
silently substitutes the defaults. -/
theorem c2_counterexample :
    1/100 < |c2EmptyWeights.sumValues - 1| ∧
    mkWeightedRelevanceCalculator (some c2EmptyWeights) =
      Except.ok defaultPartialWeights := by
  constructor
  · norm_num [c2EmptyWeights, PartialWeights.sumValues]
  · norm_num [mkWeightedRelevanceCalculator, c2EmptyWeights,
      PartialWeights.isEmptyDict, PartialWeights.sumValues, defaultPartialWeights]

/-- C2 (amended): for every non-empty supplied weight dict, construction
fails if and only if the weights sum to a value differing from 1.0 by
more than 0.01; within tolerance construction succeeds and stores the
supplied weights unchanged (never normalized). A `None` or empty dict is
replaced by the default weights. -/
theorem c2_construction_validates_nonempty_weights
    (pw : PartialWeights) (hne : pw.isEmptyDict = false) :
    ((∃ r, mkWeightedRelevanceCalculator (some pw) = Except.ok r) ↔
      |pw.sumValues - 1| ≤ 1/100) ∧
    (∀ r, mkWeightedRelevanceCalculator (some pw) = Except.ok r → r = pw) := by
  unfold mkWeightedRelevanceCalculator
  simp only [hne, Bool.false_eq_true, if_false]
  by_cases h : 1/100 < |pw.sumValues - 1|
  · rw [if_pos h]
    refine ⟨⟨fun hex => ?_, fun hle => absurd h (not_lt.mpr hle)⟩, fun r hr => ?_⟩
    · obtain ⟨r, hr⟩ := hex
      exact Except.noConfusion hr
    · exact Except.noConfusion hr
  · rw [if_neg h]
    refine ⟨⟨fun _ => not_lt.mp h, fun _ => ⟨pw, rfl⟩⟩, fun r hr => ?_⟩
    injection hr with h2
    exact h2.symm

/-- C2 witness: the amended theorem instantiated at the (non-empty)
default weight dict. -/
theorem c2_witness :
    ((∃ r, mkWeightedRelevanceCalculator (some defaultPartialWeights) = Except.ok r) ↔
      |defaultPartialWeights.sumValues - 1| ≤ 1/100) ∧
    (∀ r, mkWeightedRelevanceCalculator (some defaultPartialWeights) = Except.ok r →
      r = defaultPartialWeights) :=
  c2_construction_validates_nonempty_weights defaultPartialWeights rfl

theorem insertDesc_perm (x : CleanupCandidate) (l : List CleanupCandidate) :
    List.Perm (insertDesc x l) (x :: l) := by
  induction l with
  | nil => simp [insertDesc]
  | cons y ys ih =>
    unfold insertDesc
    split_ifs
    · exact List.Perm.refl _
    · exact (ih.cons y).trans (List.Perm.swap x y ys)

theorem mem_insertDesc (z x : CleanupCandidate) (l : List CleanupCandidate) :
    z ∈ insertDesc x l ↔ z = x ∨ z ∈ l := by
  rw [(insertDesc_perm x l).mem_iff, List.mem_cons]

theorem insertDesc_sorted (x : CleanupCandidate) (l : List CleanupCandidate)
    (h : l.Pairwise (fun a b => b.priority ≤ a.priority)) :
    (insertDesc x l).Pairwise (fun a b => b.priority ≤ a.priority) := by
  induction l with
  | nil => simp [insertDesc]
  | cons y ys ih =>
    rw [List.pairwise_cons] at h
    obtain ⟨hy, hys⟩ := h
    unfold insertDesc
    split_ifs with hxy
    · refine List.pairwise_cons.mpr ⟨?_, List.pairwise_cons.mpr ⟨hy, hys⟩⟩
      intro z hz
      rcases List.mem_cons.mp hz with rfl | hz
      · exact le_of_lt hxy
      · exact le_trans (hy z hz) (le_of_lt hxy)
    · refine List.pairwise_cons.mpr ⟨?_, ih hys⟩
      intro z hz
      rcases (mem_insertDesc z x ys).mp hz with rfl | hz
      · exact not_lt.mp hxy
      · exact hy z hz

theorem insertDesc_filter (x : CleanupCandidate) (l : List CleanupCandidate) (p : Int)
    (h : l.Pairwise (fun a b => b.priority ≤ a.priority)) :
    (insertDesc x l).filter (fun c => c.priority = p)
      = l.filter (fun c => c.priority = p) ++ if x.priority = p then [x] else [] := by
  induction l with
  | nil =>
    simp only [insertDesc, List.filter_nil, List.nil_append]
    split_ifs with hxp <;> simp [List.filter, hxp]
  | cons y ys ih =>
    rw [List.pairwise_cons] at h
    obtain ⟨hy, hys⟩ := h
    unfold insertDesc
    by_cases hxy : x.priority > y.priority
    · rw [if_pos hxy, List.filter_cons]
      by_cases hxp : x.priority = p
      · have hfilt : (y :: ys).filter (fun c => c.priority = p) = [] := by
          rw [List.filter_eq_nil_iff]
          intro a ha
          have hle : a.priority ≤ y.priority := by
            rcases List.mem_cons.mp ha with rfl | ha
            · exact le_refl _
            · exact hy a ha
          have hlt : a.priority < x.priority := lt_of_le_of_lt hle hxy
          simp only [decide_eq_true_eq]
          omega
        simp [hxp, hfilt]
      · simp [hxp]
    · rw [if_neg hxy]
      simp only [List.filter_cons]
      rw [ih hys]
      by_cases hyp : y.priority = p <;> simp [hyp]

theorem foldl_insertDesc_perm (l : List CleanupCandidate) :
    ∀ acc, List.Perm (l.foldl (fun a x => insertDesc x a) acc) (acc ++ l) := by
  induction l with
  | nil => intro acc; simp
  | cons x xs ih =>
    intro acc
    rw [List.foldl_cons]
    refine (ih (insertDesc x acc)).trans ?_
    refine (((insertDesc_perm x acc).append_right xs).trans ?_)
    exact (List.perm_middle).symm

theorem foldl_insertDesc_sorted (l : List CleanupCandidate) :
    ∀ acc, acc.Pairwise (fun a b => b.priority ≤ a.priority) →
      (l.foldl (fun a x => insertDesc x a) acc).Pairwise
        (fun a b => b.priority ≤ a.priority) := by
  induction l with
  | nil => intro acc h; exact h
  | cons x xs ih =>
    intro acc h
    rw [List.foldl_cons]
    exact ih _ (insertDesc_sorted x acc h)

theorem foldl_insertDesc_filter (p : Int) (l : List CleanupCandidate) :
    ∀ acc, acc.Pairwise (fun a b => b.priority ≤ a.priority) →
      (l.foldl (fun a x => insertDesc x a) acc).filter (fun c => c.priority = p)
        = acc.filter (fun c => c.priority = p) ++ l.filter (fun c => c.priority = p) := by
  induction l with
  | nil => intro acc _; simp
  | cons x xs ih =>
    intro acc h
    rw [List.foldl_cons, ih _ (insertDesc_sorted x acc h),
      insertDesc_filter x acc p h, List.filter_cons]
    by_cases hxp : x.priority = p <;> simp [hxp]

theorem sortDesc_perm (l : List CleanupCandidate) : List.Perm (sortDesc l) l := by
  have h := foldl_insertDesc_perm l []
  simpa [sortDesc] using h

theorem sortDesc_sorted (l : List CleanupCandidate) :
    (sortDesc l).Pairwise (fun a b => b.priority ≤ a.priority) :=
  foldl_insertDesc_sorted l [] (List.Pairwise.nil)

theorem sortDesc_filter (l : List CleanupCandidate) (p : Int) :
    (sortDesc l).filter (fun c => c.priority = p) = l.filter (fun c => c.priority = p) := by
  have h := foldl_insertDesc_filter p l [] (List.Pairwise.nil)
  simpa [sortDesc] using h

theorem collectResults_eq (iso stale dup low : Except String (List CleanupCandidate)) :
    collectResults [iso, stale, dup, low]
      = scanResultList iso ++ scanResultList stale ++ scanResultList dup ++
        scanResultList low := by
  have step : ∀ (acc : List CleanupCandidate) (r : Except String (List CleanupCandidate)),
      (match r with
        | .ok l => acc ++ l
        | .error _ => acc) = acc ++ scanResultList r := by
    intro acc r
    cases r <;> simp [scanResultList]
  simp only [collectResults, List.foldl_cons, List.foldl_nil, step, List.nil_append,
    List.append_assoc]

/-- C3: calling `run_cleanup_cycle` while a cycle is running returns the
"cycle already running" error and leaves the flag (the in-flight cycle's
state) untouched; a cycle started from idle always releases the flag,
whether its body returned or raised; and a call made after any completed
or failed cycle behaves exactly like a call from idle. -/
theorem c3_cycle_mutual_exclusion :
    (∀ (cap : Nat) (env : CycleEnv),
      runCleanupCycle true cap env =
        (Except.error "Ciclo de limpeza já em execução", true)) ∧
    (∀ (cap : Nat) (env : CycleEnv), (runCleanupCycle false cap env).2 = false) ∧
    (∀ (cap cap2 : Nat) (env env2 : CycleEnv),
      runCleanupCycle (runCleanupCycle false cap env).2 cap2 env2 =
        runCleanupCycle false cap2 env2) :=
  ⟨fun _ _ => rfl, fun _ _ => rfl, fun _ _ _ _ => rfl⟩

/-- C5: with any subset of the four sub-scans failing,
`identify_cleanup_candidates` returns the priority sort of the
concatenation of exactly the non-failing sub-scans' candidates (a failing
sub-scan contributes nothing), and that return value is a permutation of
those contributions; the function itself is total (it never raises). -/
theorem c5_subscan_failures_discarded
    (iso stale dup low : Except String (List CleanupCandidate)) :
    identifyCleanupCandidates iso stale dup low
      = sortDesc (scanResultList iso ++ scanResultList stale ++
          scanResultList dup ++ scanResultList low) ∧
    List.Perm (identifyCleanupCandidates iso stale dup low)
      (scanResultList iso ++ scanResultList stale ++ scanResultList dup ++
        scanResultList low) := by
  have h : identifyCleanupCandidates iso stale dup low
      = sortDesc (scanResultList iso ++ scanResultList stale ++
          scanResultList dup ++ scanResultList low) := by
    unfold identifyCleanupCandidates
    rw [collectResults_eq]
  exact ⟨h, by rw [h]; exact sortDesc_perm _⟩

/-- C6: the list returned by `identify_cleanup_candidates` is sorted
non-increasing by priority, and the sort is stable over the concatenation
order isolated, stale, duplicate, low-relevance: for every priority the
equal-priority candidates appear exactly in concatenation order. -/
theorem c6_priority_sort_stable (l1 l2 l3 l4 : List CleanupCandidate) :
    (identifyCleanupCandidates (Except.ok l1) (Except.ok l2) (Except.ok l3)
        (Except.ok l4)).Pairwise (fun a b => b.priority ≤ a.priority) ∧
    ∀ p : Int,
      (identifyCleanupCandidates (Except.ok l1) (Except.ok l2) (Except.ok l3)
          (Except.ok l4)).filter (fun c => c.priority = p)
        = (l1 ++ l2 ++ l3 ++ l4).filter (fun c => c.priority = p) := by
  have h : identifyCleanupCandidates (Except.ok l1) (Except.ok l2) (Except.ok l3)
      (Except.ok l4) = sortDesc (l1 ++ l2 ++ l3 ++ l4) := by
    unfold identifyCleanupCandidates
    rw [collectResults_eq]
    rfl
  rw [h]
  exact ⟨sortDesc_sorted _, fun p => sortDesc_filter _ p⟩

theorem applyFold_spec (exec : CleanupAction → List CleanupCandidate → Except String Nat)
    (G : CleanupAction → List CleanupCandidate) :
    ∀ (ks : List CleanupAction), ks.Nodup → ∀ (r : CleanupResults),
      ((ks.map (fun a => (a, G a))).foldl (applyStep exec) r) =
        { deleted := if CleanupAction.delete ∈ ks then
            execCountD exec G CleanupAction.delete r.deleted else r.deleted,
          archived := if CleanupAction.archive ∈ ks then
            execCountD exec G CleanupAction.archive r.archived else r.archived,
          merged := if CleanupAction.merge ∈ ks then
            execCountD exec G CleanupAction.merge r.merged else r.merged,
          refreshed := if CleanupAction.update ∈ ks then
            execCountD exec G CleanupAction.update r.refreshed else r.refreshed,
          errors := r.errors ++ ks.filterMap (execMsg exec G) } := by
  intro ks
  induction ks with
  | nil => intro _ r; simp
  | cons k ks ih =>
    intro hk r
    rw [List.nodup_cons] at hk
    obtain ⟨hknotin, hknodup⟩ := hk
    rw [List.map_cons, List.foldl_cons, ih hknodup]
    have happly : applyStep exec r (k, G k) =
        match exec k (G k) with
        | .ok n => setCount r k n
        | .error e => { r with errors := r.errors ++ [errMsg k e] } := rfl
    cases hek : exec k (G k) with
    | error e =>
      rw [happly, hek]
      cases k <;>
        simp [execCountD, execMsg, hek, List.mem_cons, hknotin, errMsg,
          List.filterMap_cons, if_neg hknotin]
    | ok n =>
      rw [happly, hek]
      cases k <;>
        simp [setCount, execCountD, execMsg, hek, List.mem_cons, hknotin,
          List.filterMap_cons, if_neg hknotin]

theorem mem_foldl_dedup (l : List CleanupAction) :
    ∀ (acc : List CleanupAction) (a : CleanupAction),
      a ∈ l.foldl (fun acc x => if x ∈ acc then acc else acc ++ [x]) acc ↔
        a ∈ acc ∨ a ∈ l := by
  induction l with
  | nil => intro acc a; simp
  | cons x xs ih =>
    intro acc a
    rw [List.foldl_cons]
    by_cases hx : x ∈ acc
    · rw [if_pos hx, ih]
      constructor
      · rintro (h | h)
        · exact Or.inl h
        · exact Or.inr (List.mem_cons_of_mem x h)
      · rintro (h | h)
        · exact Or.inl h
        · rcases List.mem_cons.mp h with rfl | h
          · exact Or.inl hx
          · exact Or.inr h
    · rw [if_neg hx, ih]
      simp [List.mem_append, List.mem_cons, or_assoc, or_comm, or_left_comm]

theorem nodup_foldl_dedup (l : List CleanupAction) :
    ∀ (acc : List CleanupAction), acc.Nodup →
      (l.foldl (fun acc x => if x ∈ acc then acc else acc ++ [x]) acc).Nodup := by
  induction l with
  | nil => intro acc h; exact h
  | cons x xs ih =>
    intro acc h
    rw [List.foldl_cons]
    by_cases hx : x ∈ acc
    · rw [if_pos hx]; exact ih acc h
    · rw [if_neg hx]
      refine ih _ ?_
      rw [List.nodup_append]
      exact ⟨h, List.nodup_singleton x, by simpa using hx⟩

theorem mem_actionOrder (cs : List CleanupCandidate) (a : CleanupAction) :
    a ∈ actionOrder cs ↔ a ∈ cs.map (fun c => c.action) := by
  unfold actionOrder dedupFirst
  rw [mem_foldl_dedup]
  simp

theorem actionOrder_nodup (cs : List CleanupCandidate) : (actionOrder cs).Nodup :=
  nodup_foldl_dedup _ [] List.nodup_nil

theorem applyCleanupActions_spec
    (exec : CleanupAction → List CleanupCandidate → Except String Nat)
    (cs : List CleanupCandidate) :
    applyCleanupActions exec cs =
      { deleted := groupCount exec cs CleanupAction.delete,
        archived := groupCount exec cs CleanupAction.archive,
        merged := groupCount exec cs CleanupAction.merge,
        refreshed := groupCount exec cs CleanupAction.update,
        errors := groupErrors exec cs } := by
  unfold applyCleanupActions actionGroups
  rw [applyFold_spec exec (groupFor cs) (actionOrder cs) (actionOrder_nodup cs)]
  simp [groupCount, groupErrors]

/-- C4: `apply_cleanup_actions` always returns a `CleanupResults` (it is
total over the executors' outcomes), and its outcome is fully
characterized per action group: a group whose executor raised contributes
exactly one error message (naming the action and the error text, in
group order — `groupErrors` yields one entry per failing group) and its
count stays 0, while every other present group still executes and sets
its count (`groupCount`). In particular, in the concrete scenario where
the Delete group raises "boom" and the Archive group succeeds, the result
has archived = 1 > 0, deleted = 0, and exactly the one error entry
mentioning "delete". -/
theorem c4_apply_isolates_action_group_failures :
    (∀ (exec : CleanupAction → List CleanupCandidate → Except String Nat)
        (cs : List CleanupCandidate),
      applyCleanupActions exec cs =
        { deleted := groupCount exec cs CleanupAction.delete,
          archived := groupCount exec cs CleanupAction.archive,
          merged := groupCount exec cs CleanupAction.merge,
          refreshed := groupCount exec cs CleanupAction.update,
          errors := groupErrors exec cs }) ∧
    applyCleanupActions c4Exec [c4DeleteCand, c4ArchiveCand] =
      { deleted := 0, archived := 1, merged := 0, refreshed := 0,
        errors := ["Erro ao executar delete: boom"] } :=
  ⟨applyCleanupActions_spec, by rfl⟩

theorem applyCleanupActions_nil
    (exec : CleanupAction → List CleanupCandidate → Except String Nat) :
    applyCleanupActions exec [] = {} := rfl

theorem identifiedCandidates_sorted (env : CycleEnv) :
    (identifiedCandidates env).Pairwise (fun a b => b.priority ≤ a.priority) := by
  unfold identifiedCandidates identifyCleanupCandidates
  exact sortDesc_sorted _

theorem keptCandidates_eq (cap : Nat) (env : CycleEnv) :
    keptCandidates cap env =
      if (identifiedCandidates env).length > cap then (identifiedCandidates env).take cap
      else identifiedCandidates env := rfl

/-- C7: when both health analyses succeed, `run_cleanup_cycle` applies
actions to exactly `keptCandidates` — the identified (priority-sorted)
list truncated to the cap. When identification yields more than `cap`
candidates, the kept list is the first `cap` of the sorted list (hence a
highest-priority prefix: every kept candidate has priority at least that
of every dropped one); with at most `cap` candidates, the full list is
applied unchanged. -/
theorem c7_truncation_to_cap (cap : Nat) (env : CycleEnv)
    (hb ha : MemoryHealthMetrics)
    (hhb : env.healthBefore = Except.ok hb) (hha : env.healthAfter = Except.ok ha) :
    (runCleanupCycle false cap env).1 =
      Except.ok (applyCleanupActions env.exec (keptCandidates cap env)) ∧
    ((identifiedCandidates env).length > cap →
      keptCandidates cap env = (identifiedCandidates env).take cap ∧
      (keptCandidates cap env).length = cap ∧
      ∀ a ∈ keptCandidates cap env, ∀ b ∈ (identifiedCandidates env).drop cap,
        b.priority ≤ a.priority) ∧
    ((identifiedCandidates env).length ≤ cap → keptCandidates cap env = identifiedCandidates env) := by
  refine ⟨?_, ?_, ?_⟩
  · have hresults : ∀ l : List CleanupCandidate,
        (if l.isEmpty then ({} : CleanupResults) else applyCleanupActions env.exec l)
          = applyCleanupActions env.exec l := by
      intro l
      cases l with
      | nil => simp [applyCleanupActions_nil]
      | cons x xs => simp [List.isEmpty]
    simp only [runCleanupCycle, Bool.false_eq_true, if_false]
    rw [hhb, hha]
    simp only [bind, Except.bind, hresults]
    rfl
  · intro hlen
    have hkept : keptCandidates cap env = (identifiedCandidates env).take cap := by
      rw [keptCandidates_eq, if_pos hlen]
    refine ⟨hkept, ?_, ?_⟩
    · rw [hkept, List.length_take]
      omega
    · intro a ha2 b hb2
      have hp := identifiedCandidates_sorted env
      rw [← List.take_append_drop cap (identifiedCandidates env)] at hp
      rcases List.pairwise_append.mp hp with ⟨_, _, hcross⟩
      rw [hkept] at ha2
      exact hcross a ha2 b hb2
  · intro hlen
    rw [keptCandidates_eq, if_neg (by omega)]

/-- C7 witness: the theorem instantiated at `c7Env` with cap 1. -/
theorem c7_witness :
    (runCleanupCycle false 1 c7Env).1 =
      Except.ok (applyCleanupActions c7Env.exec (keptCandidates 1 c7Env)) ∧
    ((identifiedCandidates c7Env).length > 1 →
      keptCandidates 1 c7Env = (identifiedCandidates c7Env).take 1 ∧
      (keptCandidates 1 c7Env).length = 1 ∧
      ∀ a ∈ keptCandidates 1 c7Env, ∀ b ∈ (identifiedCandidates c7Env).drop 1,
        b.priority ≤ a.priority) ∧
    ((identifiedCandidates c7Env).length ≤ 1 →
      keptCandidates 1 c7Env = identifiedCandidates c7Env) :=
  c7_truncation_to_cap 1 c7Env c7Health c7Health rfl rfl

/-- C8: the claim as stated is false on the reason text: the isolated
scan's candidate for the medium-importance row `c8Row` is a Delete at
priority 3 as claimed, but its reason string is the source literal
"Nó isolado sem conexões", not "isolated, no connections." -/
theorem c8_counterexample :
    findIsolatedNodes [c8Row] = Except.ok [c8Candidate] ∧
    c8Candidate.action = CleanupAction.delete ∧
    c8Candidate.priority = 3 ∧
    c8Candidate.reason = "Nó isolado sem conexões" ∧
    c8Candidate.reason ≠ "isolated, no connections." := by
  refine ⟨by rfl, by rfl, by rfl, by rfl, by decide⟩

theorem isolatedCandidate_spec (node : MemoryNode) :
    (isolatedCandidate node).node = node ∧
    (isolatedCandidate node).reason = "Nó isolado sem conexões" ∧
    (node.importance ≠ "high" →
      (isolatedCandidate node).action = CleanupAction.delete ∧
      (isolatedCandidate node).priority = 3) ∧
    (node.importance = "high" →
      (isolatedCandidate node).action = CleanupAction.archive ∧
      (isolatedCandidate node).priority = 2) := by
  unfold isolatedCandidate
  by_cases h : node.importance = "high" <;> simp [h]

/-- C8 (amended): every row of a successful isolated scan yields exactly
one candidate, whose action is Delete with priority 3 when the node's
importance is not "high" and Archive with priority 2 otherwise, and whose
reason string is the source literal "Nó isolado sem conexões" (the
spec's "isolated, no connections" rendered in Portuguese). -/
theorem c8_isolated_policy (rows : List Row) (cands : List CleanupCandidate)
    (h : findIsolatedNodes rows = Except.ok cands) :
    cands.length = rows.length ∧
    ∀ c ∈ cands,
      c.reason = "Nó isolado sem conexões" ∧
      (c.node.importance ≠ "high" →
        c.action = CleanupAction.delete ∧ c.priority = 3) ∧
      (c.node.importance = "high" →
        c.action = CleanupAction.archive ∧ c.priority = 2) := by
  induction rows generalizing cands with
  | nil =>
    unfold findIsolatedNodes at h
    injection h with h
    subst h
    exact ⟨rfl, by intro c hc; cases hc⟩
  | cons r rows ih =>
    unfold findIsolatedNodes at h
    cases hr : rowToMemoryNode r with
    | error e => rw [hr] at h; exact Except.noConfusion h
    | ok node =>
      rw [hr] at h
      cases hrest : findIsolatedNodes rows with
      | error e =>
        rw [hrest] at h
        exact Except.noConfusion h
      | ok rest =>
        rw [hrest] at h
        simp only [bind, Except.bind, pure, Except.pure] at h
        injection h with h
        subst h
        obtain ⟨ihlen, ihall⟩ := ih rest hrest
        refine ⟨by simp [ihlen], ?_⟩
        intro c hc
        rcases List.mem_cons.mp hc with rfl | hc
        · obtain ⟨_, hreason, hdel, harc⟩ := isolatedCandidate_spec node
          refine ⟨hreason, ?_, ?_⟩
          · intro hni
            have hni2 : node.importance ≠ "high" := by
              obtain ⟨heq, _, _, _⟩ := isolatedCandidate_spec node
              rw [heq] at hni
              exact hni
            exact hdel hni2
          · intro hi
            have hi2 : node.importance = "high" := by
              obtain ⟨heq, _, _, _⟩ := isolatedCandidate_spec node
              rw [heq] at hi
              exact hi
            exact harc hi2
        · exact ihall c hc

/-- C8 witness: the amended theorem instantiated at the single row
`c8Row`. -/
theorem c8_witness :
    [c8Candidate].length = [c8Row].length ∧
    ∀ c ∈ [c8Candidate],
      c.reason = "Nó isolado sem conexões" ∧
      (c.node.importance ≠ "high" →
        c.action = CleanupAction.delete ∧ c.priority = 3) ∧
      (c.node.importance = "high" →
        c.action = CleanupAction.archive ∧ c.priority = 2) :=
  c8_isolated_policy [c8Row] [c8Candidate] rfl

/-- C9: the claim as stated is false: memoization is keyed by the full
frozen-dataclass snapshot, not by node identity. `c9NodeA` and `c9NodeB`
carry the same identity but different connection counts; within one cycle
the second cached call returns a different score than the first, not "the
same cached score". -/
theorem c9_counterexample :
    c9NodeA.id = c9NodeB.id ∧ c9NodeA ≠ c9NodeB ∧
    (calculateCached 0 defaultWeights
        (calculateCached 0 defaultWeights [] c9NodeA).2 c9NodeB).1 ≠
      (calculateCached 0 defaultWeights [] c9NodeA).1 := by
  have hmh : ("medium" : String) = "high" ↔ False := iff_false_intro (by decide)
  have hgp : ("general" : String) = "professional" ↔ False := iff_false_intro (by decide)
  have hne : c9NodeA ≠ c9NodeB := by decide
  have hcache : (calculateCached 0 defaultWeights [] c9NodeA).2
      = [(c9NodeA, calculate 0 defaultWeights c9NodeA)] := by
    simp [calculateCached, List.find?]
  have h1 : (calculateCached 0 defaultWeights [] c9NodeA).1 = 0 := by
    norm_num [calculateCached, calculate, defaultWeights, c9NodeA, List.find?, hmh, hgp]
  have h2 : (calculateCached 0 defaultWeights
      (calculateCached 0 defaultWeights [] c9NodeA).2 c9NodeB).1 = 3/10 := by
    rw [hcache]
    have hfind : List.find? (fun p => decide (p.1 = c9NodeB))
        [(c9NodeA, calculate 0 defaultWeights c9NodeA)] = none := by
      simp [List.find?, hne]
    unfold calculateCached
    rw [hfind]
    norm_num [calculate, defaultWeights, c9NodeB, hmh, hgp]
  refine ⟨rfl, hne, ?_⟩
  rw [h1, h2]
  norm_num


/-- C9 (amended): relevance calculation is memoized by the full node
snapshot (all dataclass fields): the cached call always returns the pure
`calculate` of the exact snapshot, coherence of the cache is preserved,
the snapshot just scored is present in the cache afterwards, and every
cache entry either has the scored snapshot as its key or was already
present before the call — entries persist across calls (subject only to
the LRU capacity of 1000) and nothing evicts them at cycle boundaries. -/
theorem c9_memoized_by_full_snapshot (now : Int) (w : Weights)
    (cache : List (MemoryNode × ℚ)) (n : MemoryNode)
    (hco : CacheCoherent now w cache) :
    (calculateCached now w cache n).1 = calculate now w n ∧
    CacheCoherent now w (calculateCached now w cache n).2 ∧
    (∃ v, (n, v) ∈ (calculateCached now w cache n).2) ∧
    (∀ p ∈ (calculateCached now w cache n).2, p.1 = n ∨ p ∈ cache) := by
  unfold calculateCached
  cases hf : cache.find? (fun p => p.1 = n) with
  | some p =>
    have hmem : p ∈ cache := List.mem_of_find?_eq_some hf
    have hp1 : p.1 = n := by
      have := List.find?_some hf
      simpa using this
    have hval : p.2 = calculate now w n := by
      rw [hco p hmem, hp1]
    refine ⟨hval, ?_, ?_, ?_⟩
    · intro q hq
      rcases List.mem_cons.mp hq with rfl | hq
      · exact hco q hmem
      · exact hco q ((List.eraseP_sublist _).subset hq)
    · refine ⟨p.2, ?_⟩
      have hpe : (n, p.2) = p := by
        rw [← hp1]
      rw [hpe]
      exact List.mem_cons_self _ _
    · intro q hq
      rcases List.mem_cons.mp hq with rfl | hq
      · exact Or.inl hp1
      · exact Or.inr ((List.eraseP_sublist _).subset hq)
  | none =>
    by_cases hlen : ((n, calculate now w n) :: cache).length > 1000
    · rw [if_pos hlen]
      cases cache with
      | nil => simp at hlen
      | cons y ys =>
        refine ⟨rfl, ?_, ?_, ?_⟩
        · intro q hq
          have hq2 : q ∈ (n, calculate now w n) :: y :: ys :=
            (List.dropLast_sublist _).subset hq
          rcases List.mem_cons.mp hq2 with rfl | hq2
          · rfl
          · exact hco q hq2
        · refine ⟨calculate now w n, ?_⟩
          rw [List.dropLast_cons₂]
          exact List.mem_cons_self _ _
        · intro q hq
          have hq2 : q ∈ (n, calculate now w n) :: y :: ys :=
            (List.dropLast_sublist _).subset hq
          rcases List.mem_cons.mp hq2 with rfl | hq2
          · exact Or.inl rfl
          · exact Or.inr hq2
    · rw [if_neg hlen]
      refine ⟨rfl, ?_, ⟨calculate now w n, List.mem_cons_self _ _⟩, ?_⟩
      · intro q hq
        rcases List.mem_cons.mp hq with rfl | hq
        · rfl
        · exact hco q hq
      · intro q hq
        rcases List.mem_cons.mp hq with rfl | hq
        · exact Or.inl rfl
        · exact Or.inr hq

/-- C9 witness: the amended theorem applied to the empty (trivially
coherent) cache and a concrete node. -/
theorem c9_witness :
    (calculateCached 0 defaultWeights [] c9NodeA).1 = calculate 0 defaultWeights c9NodeA ∧
    CacheCoherent 0 defaultWeights (calculateCached 0 defaultWeights [] c9NodeA).2 ∧
    (∃ v, (c9NodeA, v) ∈ (calculateCached 0 defaultWeights [] c9NodeA).2) ∧
    (∀ p ∈ (calculateCached 0 defaultWeights [] c9NodeA).2, p.1 = c9NodeA ∨ p ∈ ([] : List (MemoryNode × ℚ))) :=
  c9_memoized_by_full_snapshot 0 defaultWeights [] c9NodeA (by intro p hp; cases hp)

theorem mergeStep_none (mexec : String → String → Except String (List Int))
    (acc : Nat) (c : CleanupCandidate) (h : c.similarity_target = none) :
    mergeStep mexec acc c = acc := by
  unfold mergeStep
  rw [h]

theorem mergeNodes_middle_none (mexec : String → String → Except String (List Int))
    (l1 l2 : List CleanupCandidate) (c : CleanupCandidate)
    (h : c.similarity_target = none) :
    mergeNodes mexec (l1 ++ c :: l2) = mergeNodes mexec (l1 ++ l2) := by
  unfold mergeNodes
  rw [List.foldl_append, List.foldl_append, List.foldl_cons, mergeStep_none mexec _ c h]

theorem mergeAttempts_middle_none (l1 l2 : List CleanupCandidate)
    (c : CleanupCandidate) (h : c.similarity_target = none) :
    mergeAttempts (l1 ++ c :: l2) = mergeAttempts (l1 ++ l2) := by
  unfold mergeAttempts
  rw [List.filterMap_append, List.filterMap_append, List.filterMap_cons]
  simp only [h]

theorem groupFor_middle_ne (l1 l2 : List CleanupCandidate) (c : CleanupCandidate)
    (a : CleanupAction) (h : ¬(c.action = a)) :
    groupFor (l1 ++ c :: l2) a = groupFor (l1 ++ l2) a := by
  unfold groupFor
  rw [List.filter_append, List.filter_append, List.filter_cons]
  simp [h]

theorem groupFor_middle_eq (l1 l2 : List CleanupCandidate) (c : CleanupCandidate)
    (a : CleanupAction) (h : c.action = a) :
    groupFor (l1 ++ c :: l2) a = groupFor l1 a ++ c :: groupFor l2 a := by
  unfold groupFor
  rw [List.filter_append, List.filter_cons]
  simp [h]

theorem dedup_foldl_filter (p : CleanupAction → Bool) (l : List CleanupAction) :
    ∀ acc, (l.foldl (fun acc x => if x ∈ acc then acc else acc ++ [x]) acc).filter p
      = (l.filter p).foldl (fun acc x => if x ∈ acc then acc else acc ++ [x])
          (acc.filter p) := by
  induction l with
  | nil => intro acc; simp
  | cons x xs ih =>
    intro acc
    rw [List.foldl_cons, List.filter_cons]
    have hstep : ((if x ∈ acc then acc else acc ++ [x]).filter p)
        = if p x then (if x ∈ acc.filter p then acc.filter p else acc.filter p ++ [x])
          else acc.filter p := by
      by_cases hx : x ∈ acc
      · rw [if_pos hx]
        by_cases hpx : p x
        · have hxf : x ∈ acc.filter p := List.mem_filter.mpr ⟨hx, hpx⟩
          rw [if_pos hpx, if_pos hxf]
        · rw [if_neg hpx]
      · rw [if_neg hx, List.filter_append]
        by_cases hpx : p x
        · have hxf : x ∉ acc.filter p := fun hm => hx (List.mem_filter.mp hm).1
          rw [if_pos hpx, if_neg hxf]
          simp [hpx]
        · rw [if_neg hpx]
          simp [hpx]
    by_cases hpx : p x
    · rw [if_pos hpx, List.foldl_cons, ih, hstep, if_pos hpx]
    · rw [if_neg hpx, ih, hstep, if_neg hpx]

theorem filterMap_drop_none (g : CleanupAction → Option String) (k : CleanupAction)
    (hk : g k = none) (l : List CleanupAction) :
    l.filterMap g = (l.filter (fun x => x ≠ k)).filterMap g := by
  induction l with
  | nil => rfl
  | cons x xs ih =>
    rw [List.filterMap_cons, List.filter_cons]
    by_cases hx : x = k
    · subst hx
      rw [hk]
      simp [ih]
    · simp only [hx, ne_eq, not_false_iff, decide_True, if_true, List.filterMap_cons]
      rw [← ih]

/-- C10: in `apply_cleanup_actions`, a Merge candidate whose
`similarity_target` is absent is silently skipped: removing it from the
candidate list changes nothing in the returned `CleanupResults` (same
counts, same error list — so no error is recorded on its account), no
merge query is attempted for it (`mergeAttempts` is unchanged), and the
merged count over the group is unchanged, while the remaining Merge
candidates are still processed. -/

theorem c10_merge_without_target_skipped
    (execD execA execU : List CleanupCandidate → Except String Nat)
    (mexec : String → String → Except String (List Int))
    (pre post : List CleanupCandidate) (c : CleanupCandidate)
    (hact : c.action = CleanupAction.merge) (htgt : c.similarity_target = none) :
    applyCleanupActions (execWith execD execA execU mexec) (pre ++ c :: post)
      = applyCleanupActions (execWith execD execA execU mexec) (pre ++ post) ∧
    mergeAttempts (groupFor (pre ++ c :: post) CleanupAction.merge)
      = mergeAttempts (groupFor (pre ++ post) CleanupAction.merge) ∧
    mergeNodes mexec (groupFor (pre ++ c :: post) CleanupAction.merge)
      = mergeNodes mexec (groupFor (pre ++ post) CleanupAction.merge) := by
  have hgmerge : groupFor (pre ++ c :: post) CleanupAction.merge
      = groupFor pre CleanupAction.merge ++ c :: groupFor post CleanupAction.merge :=
    groupFor_middle_eq pre post c _ hact
  have hgmerge2 : groupFor (pre ++ post) CleanupAction.merge
      = groupFor pre CleanupAction.merge ++ groupFor post CleanupAction.merge := by
    unfold groupFor
    rw [List.filter_append]
  have hatt : mergeAttempts (groupFor (pre ++ c :: post) CleanupAction.merge)
      = mergeAttempts (groupFor (pre ++ post) CleanupAction.merge) := by
    rw [hgmerge, hgmerge2, mergeAttempts_middle_none _ _ c htgt]
  have hmn : mergeNodes mexec (groupFor (pre ++ c :: post) CleanupAction.merge)
      = mergeNodes mexec (groupFor (pre ++ post) CleanupAction.merge) := by
    rw [hgmerge, hgmerge2, mergeNodes_middle_none mexec _ _ c htgt]
  refine ⟨?_, hatt, hmn⟩
  have hgf : ∀ a, ¬(c.action = a) →
      groupFor (pre ++ c :: post) a = groupFor (pre ++ post) a :=
    fun a h => groupFor_middle_ne pre post c a h
  have hmemiff : ∀ a, a ≠ CleanupAction.merge →
      (a ∈ actionOrder (pre ++ c :: post) ↔ a ∈ actionOrder (pre ++ post)) := by
    intro a ha
    rw [mem_actionOrder, mem_actionOrder]
    simp only [List.map_append, List.map_cons, List.mem_append, List.mem_cons]
    constructor
    · rintro (h | h | h)
      · exact Or.inl h
      · exact absurd (h.trans hact) ha
      · exact Or.inr h
    · rintro (h | h)
      · exact Or.inl h
      · exact Or.inr (Or.inr h)
  have hcnt : ∀ a, a ≠ CleanupAction.merge →
      groupCount (execWith execD execA execU mexec) (pre ++ c :: post) a
        = groupCount (execWith execD execA execU mexec) (pre ++ post) a := by
    intro a ha
    unfold groupCount execCountD
    rw [hgf a (fun h => ha (h.symm.trans hact))]
    by_cases hm : a ∈ actionOrder (pre ++ post)
    · rw [if_pos ((hmemiff a ha).mpr hm), if_pos hm]
    · rw [if_neg (fun hx => hm ((hmemiff a ha).mp hx)), if_neg hm]
  have hmergecnt :
      groupCount (execWith execD execA execU mexec) (pre ++ c :: post)
          CleanupAction.merge
        = groupCount (execWith execD execA execU mexec) (pre ++ post)
            CleanupAction.merge := by
    have hmem1 : CleanupAction.merge ∈ actionOrder (pre ++ c :: post) := by
      rw [mem_actionOrder]
      simp only [List.map_append, List.map_cons, List.mem_append, List.mem_cons]
      exact Or.inr (Or.inl hact.symm)
    unfold groupCount execCountD
    rw [if_pos hmem1]
    by_cases hmem2 : CleanupAction.merge ∈ actionOrder (pre ++ post)
    · rw [if_pos hmem2]
      exact hmn
    · rw [if_neg hmem2]
      have hempty : groupFor (pre ++ post) CleanupAction.merge = [] := by
        rw [mem_actionOrder] at hmem2
        unfold groupFor
        rw [List.filter_eq_nil_iff]
        intro x hx
        simp only [decide_eq_true_eq]
        intro hxa
        exact hmem2 (List.mem_map.mpr ⟨x, hx, hxa⟩)
      show mergeNodes mexec (groupFor (pre ++ c :: post) CleanupAction.merge) = 0
      rw [hmn, hempty]
      rfl
  rw [applyCleanupActions_spec, applyCleanupActions_spec]
  simp only [CleanupResults.mk.injEq]
  refine ⟨hcnt _ (by decide), hcnt _ (by decide), hmergecnt, hcnt _ (by decide), ?_⟩
  unfold groupErrors
  have hnone1 : execMsg (execWith execD execA execU mexec)
      (groupFor (pre ++ c :: post)) CleanupAction.merge = none := rfl
  have hnone2 : execMsg (execWith execD execA execU mexec)
      (groupFor (pre ++ post)) CleanupAction.merge = none := rfl
  rw [filterMap_drop_none _ _ hnone1, filterMap_drop_none _ _ hnone2]
  have hcomm : ∀ (L : List CleanupCandidate),
      (actionOrder L).filter (fun x => x ≠ CleanupAction.merge)
        = dedupFirst ((L.map (fun c => c.action)).filter
            (fun x => x ≠ CleanupAction.merge)) := by
    intro L
    unfold actionOrder dedupFirst
    rw [dedup_foldl_filter]
    rfl
  rw [hcomm, hcomm]
  have hmapeq : ((pre ++ c :: post).map (fun c => c.action)).filter
        (fun x => x ≠ CleanupAction.merge)
      = ((pre ++ post).map (fun c => c.action)).filter
          (fun x => x ≠ CleanupAction.merge) := by
    simp only [List.map_append, List.map_cons, List.filter_append, List.filter_cons, hact]
    simp
  rw [hmapeq]
  apply List.filterMap_congr
  intro a ha
  have hane : a ≠ CleanupAction.merge := by
    unfold dedupFirst at ha
    rcases (mem_foldl_dedup _ [] a).mp ha with h0 | hfil
    · cases h0
    · have := List.mem_filter.mp hfil
      simpa using this.2
  unfold execMsg
  rw [hgf a (fun h => hane (h.symm.trans hact))]

/-- C10 witness: the theorem applied to a target-less Merge candidate in
front of one well-formed Merge candidate. -/
theorem c10_witness :
    applyCleanupActions (execWith c10Ok c10Ok c10Ok c10Exec)
        ([] ++ c10NoTarget :: [c10WithTarget])
      = applyCleanupActions (execWith c10Ok c10Ok c10Ok c10Exec)
          ([] ++ [c10WithTarget]) ∧
    mergeAttempts (groupFor ([] ++ c10NoTarget :: [c10WithTarget]) CleanupAction.merge)
      = mergeAttempts (groupFor ([] ++ [c10WithTarget]) CleanupAction.merge) ∧
    mergeNodes c10Exec (groupFor ([] ++ c10NoTarget :: [c10WithTarget]) CleanupAction.merge)
      = mergeNodes c10Exec (groupFor ([] ++ [c10WithTarget]) CleanupAction.merge) :=
  c10_merge_without_target_skipped c10Ok c10Ok c10Ok c10Exec [] [c10WithTarget]
    c10NoTarget rfl rfl
